import Mathlib

/-!
Verification development for the nightingale build-and-deploy orchestrator
(`src/nightingale.py`).

The script is shallowly embedded: every external effect (git, the docker
CLI, the template renderer, smtp) is represented by an observation or a
success oracle, and each fallible python call site becomes a test of that
oracle; a python exception becomes `Except.error`.  The docker image store
is a list of existing `name:tag` strings threaded through the pipeline.
-/

set_option autoImplicit false

namespace Nightingale

/-! ## Dates and the nightly timestamp suffix

`datetime.now().strftime('-%Y%m%d%H%M')` renders the current wall-clock
time as a dash followed by twelve zero-padded digits. -/

/-- Broken-down wall-clock time, as used by `strftime`. -/
structure DateParts where
  year : Nat
  month : Nat
  day : Nat
  hour : Nat
  minute : Nat
  deriving Repr, DecidableEq

/-- The character for a single decimal digit value. -/
def digitChar (n : Nat) : Char := Char.ofNat (48 + n)

/-- `datetime.strftime('-%Y%m%d%H%M')`: a dash, four year digits, then two
digits each for month, day, hour and minute, all zero-padded. -/
def strftimeSuffix (d : DateParts) : String :=
  String.mk ['-',
    digitChar (d.year / 1000 % 10), digitChar (d.year / 100 % 10),
    digitChar (d.year / 10 % 10), digitChar (d.year % 10),
    digitChar (d.month / 10 % 10), digitChar (d.month % 10),
    digitChar (d.day / 10 % 10), digitChar (d.day % 10),
    digitChar (d.hour / 10 % 10), digitChar (d.hour % 10),
    digitChar (d.minute / 10 % 10), digitChar (d.minute % 10)]

/-! ## Workload descriptors

One `app` entry of the configuration file, with the keys the script reads.
Optional keys (`app.get(...)`) are `Option` fields. -/

/-- A workload descriptor: one application entry from the config file. -/
structure App where
  name : String
  mode : String
  repo : String
  branch : String
  subdir : Option String := none
  buildcmd : Option String := none
  builddir : Option String := none
  docker_template : String := ""
  version : Option String := none
  version_cmd : Option String := none
  port : Option String := none
  inner_port : Option String := none
  deriving Repr, DecidableEq

/-! ## Version resolution (`make_version`) -/

/-- Observed environment for one `make_version` call: the outcome of
`git describe --abbrev=0 --tags` (`none` when the subprocess fails, i.e.
no tag exists), the wall-clock time, and whether a configured
`version_cmd` subprocess exits zero. -/
structure VersionEnv where
  gitTag : Option String
  now : DateParts
  versionCmdOk : Bool

/-- `make_version(path, app)`: take the latest git tag if `git describe`
succeeds, else the descriptor `version` key (default `0.0.1`); in nightly
mode append the timestamp suffix and, if a `version_cmd` is configured,
run it (a non-zero exit raises `CalledProcessError`, modelled as
`Except.error`). -/
def make_version (env : VersionEnv) (app : App) : Except Unit String :=
  let base : String :=
    match env.gitTag with
    | some t => t
    | none => app.version.getD "0.0.1"
  if app.mode == "nightly" then
    let v := base ++ strftimeSuffix env.now
    match app.version_cmd with
    | some _ => if env.versionCmdOk then .ok v else .error ()
    | none => .ok v
  else
    .ok base

/-- The base version `make_version` starts from: the git tag verbatim when
present, else the descriptor fallback, else `0.0.1`. -/
def baseVersion (env : VersionEnv) (app : App) : String :=
  match env.gitTag with
  | some t => t
  | none => app.version.getD "0.0.1"

/-! ## Image rotation (`rotate`)

`rotate(max_days)` walks the `docker images` listing; for each image whose
tag parses to a build timestamp older than `max_days` days, it either
warns (when some container from `docker ps -a` uses the exact name:tag
pair) or runs `docker rmi name:tag` via `check_call`, whose non-zero exit
raises and propagates out of `rotate` uncaught. -/

/-- A line of `docker images`: `builtAt` is the timestamp parsed from a
`-YYYYMMDDhhmm` tag suffix (`none` when the tag carries no such suffix),
in minutes. -/
structure Image where
  name : String
  tag : String
  builtAt : Option Int
  deriving Repr, DecidableEq

/-- The rotation age test: `image.date and (datetime.now() - image.date) >
timedelta(days=max_days)`, with times in minutes.  Images without a parsed
timestamp always fail it. -/
def agedB (now maxDays : Int) (img : Image) : Bool :=
  match img.builtAt with
  | none => false
  | some d => decide (now - d > maxDays * 24 * 60)

/-- The `name:tag` string handed to `docker rmi`. -/
def Image.nameTag (img : Image) : String := img.name ++ ":" ++ img.tag

/-- `rotate`: process the image list in order.  `containers` is the set of
`(container.image, container.tag)` pairs observed by `docker ps -a`
(`container.tag` is `none` when the container's image reference has no
colon); `rmiOk` says whether `docker rmi` exits zero for a given
`name:tag`.  Returns the deleted `name:tag` strings and the warned
`(name, tag)` pairs; a failing `docker rmi` raises immediately
(`Except.error`), abandoning the rest of the listing. -/
def rotate (rmiOk : String → Bool) (now maxDays : Int)
    (containers : List (String × Option String)) :
    List Image → Except Unit (List String × List (String × String))
  | [] => .ok ([], [])
  | img :: rest =>
    if agedB now maxDays img then
      if (img.name, some img.tag) ∈ containers then
        match rotate rmiOk now maxDays containers rest with
        | .ok (d, w) => .ok (d, (img.name, img.tag) :: w)
        | .error u => .error u
      else if rmiOk img.nameTag then
        match rotate rmiOk now maxDays containers rest with
        | .ok (d, w) => .ok (img.nameTag :: d, w)
        | .error u => .error u
      else .error ()
    else rotate rmiOk now maxDays containers rest

theorem digitChar_isDigit {k : Nat} (hk : k < 10) : (digitChar k).isDigit = true := by
  interval_cases k <;> decide

theorem strftimeSuffix_spec (d : DateParts) :
    (strftimeSuffix d).length = 13 ∧
    (strftimeSuffix d).data.head? = some '-' ∧
    ∀ c ∈ (strftimeSuffix d).data.tail, c.isDigit = true := by
  refine ⟨rfl, rfl, ?_⟩
  intro c hc
  simp only [strftimeSuffix, String.data, List.tail_cons, List.mem_cons,
    List.mem_singleton, List.not_mem_nil, or_false] at hc
  rcases hc with h | h | h | h | h | h | h | h | h | h | h | h <;>
    (subst h; exact digitChar_isDigit (Nat.mod_lt _ (by decide)))

/-- Claim C5: version resolution never fails because the source-control
tag is missing: when `git describe` yields a tag it is used verbatim in
non-nightly mode; when it fails, the descriptor fallback (default
`0.0.1`) is used; nightly mode appends exactly one `-YYYYMMDDhhmm`
timestamp suffix (13 characters: a dash then 12 digits) to the chosen
base; and a configured `version_cmd` exiting non-zero fails the
resolution. -/
theorem make_version_spec (env : VersionEnv) (app : App) :
    (app.mode ≠ "nightly" → make_version env app = .ok (baseVersion env app)) ∧
    (∀ t, env.gitTag = some t → baseVersion env app = t) ∧
    (env.gitTag = none → baseVersion env app = app.version.getD "0.0.1") ∧
    (app.mode = "nightly" → app.version_cmd = none ∨ env.versionCmdOk = true →
      make_version env app = .ok (baseVersion env app ++ strftimeSuffix env.now)) ∧
    (app.mode = "nightly" → app.version_cmd ≠ none → env.versionCmdOk = false →
      make_version env app = .error ()) ∧
    ((strftimeSuffix env.now).length = 13 ∧
      (strftimeSuffix env.now).data.head? = some '-' ∧
      ∀ c ∈ (strftimeSuffix env.now).data.tail, c.isDigit = true) := by
  refine ⟨?_, ?_, ?_, ?_, ?_, strftimeSuffix_spec env.now⟩
  · intro hmode
    simp only [make_version, baseVersion]
    rw [if_neg (by simpa using hmode)]
  · intro t ht
    simp [baseVersion, ht]
  · intro ht
    simp [baseVersion, ht]
  · intro hmode hcmd
    simp only [make_version, baseVersion, hmode]
    rw [if_pos (by simp)]
    rcases hcmd with hnone | hok
    · simp [hnone]
    · cases hvc : app.version_cmd with
      | none => simp
      | some c => simp [hok]
  · intro hmode hvc hbad
    simp only [make_version, hmode]
    rw [if_pos (by simp)]
    cases hvcmd : app.version_cmd with
    | none => exact absurd hvcmd hvc
    | some c => simp [hbad]

/-- Concrete environment for the `make_version` witness: a git tag exists
and the clock reads 2024-01-01 12:00. -/
def versionEnvW : VersionEnv := ⟨some "1.2.3", ⟨2024, 1, 1, 12, 0⟩, true⟩

/-- Concrete nightly descriptor for the `make_version` witness. -/
def appNightlyW : App :=
  { name := "web", mode := "nightly", repo := "r", branch := "main" }

theorem make_version_spec_witness :
    make_version versionEnvW appNightlyW =
      .ok ("1.2.3" ++ strftimeSuffix versionEnvW.now) ∧
    (strftimeSuffix versionEnvW.now).length = 13 := by
  have h := make_version_spec versionEnvW appNightlyW
  exact ⟨h.2.2.2.1 rfl (Or.inl rfl), h.2.2.2.2.2.1⟩

/-- Claim C1: given that the rotation pass completes (`Except.ok`), the
deleted images are exactly those whose parsed timestamp is present and
older than the threshold and whose exact name:tag pair no running
workload uses; each aged image that is in use produces a warning instead;
and an image with no parsed timestamp is never aged, hence never a
deletion candidate for any threshold. -/
theorem rotate_spec (rmiOk : String → Bool) (now maxDays : Int)
    (cs : List (String × Option String)) (images : List Image)
    (d : List String) (w : List (String × String))
    (h : rotate rmiOk now maxDays cs images = .ok (d, w)) :
    d = (images.filter
          (fun i => agedB now maxDays i && !decide ((i.name, some i.tag) ∈ cs))).map
        Image.nameTag ∧
    w = (images.filter
          (fun i => agedB now maxDays i && decide ((i.name, some i.tag) ∈ cs))).map
        (fun i => (i.name, i.tag)) ∧
    ∀ i : Image, i.builtAt = none → agedB now maxDays i = false := by
  refine ?_
  induction images generalizing d w with
  | nil =>
    simp only [rotate, Except.ok.injEq, Prod.mk.injEq] at h
    refine ⟨by simp [← h.1], by simp [← h.2], fun i hi => by simp [agedB, hi]⟩
  | cons img rest ih =>
    simp only [rotate] at h
    by_cases haged : agedB now maxDays img = true
    · rw [if_pos haged] at h
      by_cases hmem : (img.name, some img.tag) ∈ cs
      · rw [if_pos hmem] at h
        cases hrec : rotate rmiOk now maxDays cs rest with
        | ok dw =>
          rw [hrec] at h
          obtain ⟨d0, w0⟩ := dw
          simp only [Except.ok.injEq, Prod.mk.injEq] at h
          obtain ⟨hd, hw⟩ := h
          obtain ⟨ihd, ihw, ihn⟩ := ih d0 w0 hrec
          subst hd hw
          refine ⟨?_, ?_, ihn⟩
          · simp [List.filter_cons, haged, hmem, ihd]
          · simp [List.filter_cons, haged, hmem, ihw]
        | error u => rw [hrec] at h; exact absurd h (by simp)
      · rw [if_neg hmem] at h
        by_cases hrmi : rmiOk img.nameTag = true
        · rw [if_pos hrmi] at h
          cases hrec : rotate rmiOk now maxDays cs rest with
          | ok dw =>
            rw [hrec] at h
            obtain ⟨d0, w0⟩ := dw
            simp only [Except.ok.injEq, Prod.mk.injEq] at h
            obtain ⟨hd, hw⟩ := h
            obtain ⟨ihd, ihw, ihn⟩ := ih d0 w0 hrec
            subst hd hw
            refine ⟨?_, ?_, ihn⟩
            · simp [List.filter_cons, haged, hmem, ihd]
            · simp [List.filter_cons, haged, hmem, ihw]
          | error u => rw [hrec] at h; exact absurd h (by simp)
        · rw [if_neg hrmi] at h
          exact absurd h (by simp)
    · rw [if_neg haged] at h
      obtain ⟨ihd, ihw, ihn⟩ := ih d w h
      rw [Bool.not_eq_true] at haged
      refine ⟨?_, ?_, ihn⟩
      · simp [List.filter_cons, haged, ihd]
      · simp [List.filter_cons, haged, ihw]

/-- Image listing for the rotation witness: an aged image backing a
workload, an aged free image, and an unsuffixed image with no parsed
timestamp. -/
def rotateImgsW : List Image :=
  [⟨"a", "v-old", some 0⟩, ⟨"b", "w-old", some 0⟩, ⟨"c", "latest", none⟩]

/-- Workloads observed during the rotation witness: one container runs
the exact `a:v-old` pair. -/
def rotateCsW : List (String × Option String) := [("a", some "v-old")]

theorem rotate_spec_witness :
    ["b:w-old"] =
      (rotateImgsW.filter
        (fun i => agedB 2000000 1 i && !decide ((i.name, some i.tag) ∈ rotateCsW))).map
      Image.nameTag ∧
    [("a", "v-old")] =
      (rotateImgsW.filter
        (fun i => agedB 2000000 1 i && decide ((i.name, some i.tag) ∈ rotateCsW))).map
      (fun i => (i.name, i.tag)) := by
  have h := rotate_spec (fun _ => true) 2000000 1 rotateCsW rotateImgsW
    ["b:w-old"] [("a", "v-old")] rfl
  exact ⟨h.1, h.2.1⟩

/-- Rotation image list for the C9 counterexample: two aged free images;
deleting the first fails. -/
def c9ImgsW : List Image := [⟨"a", "x-old", some 0⟩, ⟨"b", "y-old", some 0⟩]

/-- The `docker rmi` oracle for the C9 counterexample: fails exactly on
`a:x-old`. -/
def c9RmiW : String → Bool := fun s => s != "a:x-old"

/-- Claim C9 counterexample: when deleting the first aged image fails,
`rotate` raises (`Except.error`) instead of continuing — even though the
remaining image `b:y-old` is aged, unused and its deletion would succeed.
The per-image failure is fatal to the whole rotation pass, contradicting
the claim that it is non-fatal and rotation continues. -/
theorem rotate_failure_fatal_cex :
    rotate c9RmiW 2000000 1 [] c9ImgsW = .error () ∧
    agedB 2000000 1 ⟨"b", "y-old", some 0⟩ = true ∧
    c9RmiW (Image.nameTag ⟨"b", "y-old", some 0⟩) = true :=
  ⟨rfl, rfl, rfl⟩

/-- Claim C9 as amended: a failed per-image deletion during rotation is
fatal: `rotate` raises immediately at the failing image, the remaining
images are not examined at all (the result does not depend on them), and
the error propagates out of the rotation pass. -/
theorem rotate_failure_fatal (rmiOk : String → Bool) (now maxDays : Int)
    (cs : List (String × Option String)) (img : Image) (rest rest2 : List Image)
    (h1 : agedB now maxDays img = true)
    (h2 : (img.name, some img.tag) ∉ cs)
    (h3 : rmiOk img.nameTag = false) :
    rotate rmiOk now maxDays cs (img :: rest) = .error () ∧
    rotate rmiOk now maxDays cs (img :: rest) =
      rotate rmiOk now maxDays cs (img :: rest2) := by
  constructor <;> simp [rotate, h1, h2, h3]

theorem rotate_failure_fatal_witness :
    rotate c9RmiW 2000000 1 [] c9ImgsW = .error () ∧
    rotate c9RmiW 2000000 1 [] c9ImgsW = rotate c9RmiW 2000000 1 [] [⟨"a", "x-old", some 0⟩] :=
  rotate_failure_fatal c9RmiW 2000000 1 [] ⟨"a", "x-old", some 0⟩
    [⟨"b", "y-old", some 0⟩] [] rfl (by simp) rfl

/-! ## Workload replacement (`docker_ps`'s `Container.match` and `run`)

`run(config, image_id, app)` lists containers, stops and removes every
container matching the descriptor, then launches the new workload.  The
python `Container.match` reads: not a match when the image names differ;
when the container has an observed host port, a match exactly when that
port equals `app.get('port', None)`; otherwise a match on name alone. -/

/-- Split a character list at every occurrence of `sep`, python
`str.split` style: the empty string yields one empty group. -/
def splitOnChar (sep : Char) : List Char → List (List Char)
  | [] => [[]]
  | c :: rest =>
    let r := splitOnChar sep rest
    if c = sep then [] :: r
    else
      match r with
      | [] => [[c]]
      | g :: gs => (c :: g) :: gs

/-- Python `s.split(':')`. -/
def splitColon (s : String) : List String :=
  (splitOnChar ':' s.data).map String.mk

/-- One line of `docker ps -a`: `port` is the observed published host
port (`none` when the container exposes no parsed `host:port->` forward),
`tag` is `none` when the image reference carries no colon. -/
structure Container where
  id : String
  image : String
  tag : Option String
  port : Option String
  status : String
  deriving Repr, DecidableEq

/-- `Container.match(image_name, port)` from the source (named
`matchImage` here because `match` is reserved in Lean). -/
def Container.matchImage (c : Container) (imageName : String) (port : Option String) : Bool :=
  if c.image ≠ imageName then false
  else
    match c.port with
    | some p => port == some p
    | none => true

/-- One engine action issued by `run`, in order. -/
inductive RunAct where
  | stop (id : String)
  | rm (id : String)
  | launch (image : String)
  deriving Repr, DecidableEq

/-- Docker success oracles and observations for one `run` call. -/
structure RunEng where
  stopOk : String → Bool
  rmOk : String → Bool
  runOk : Bool

/-- The stop/remove sweep of `run`: for each listed container, in order,
if it matches then `docker stop` and `docker rm` it (each `check_call`
fallible). -/
def runSweep (e : RunEng) (imageName : String) (port : Option String) :
    List Container → Except Unit (List RunAct)
  | [] => .ok []
  | c :: rest =>
    if c.matchImage imageName port then
      if e.stopOk c.id then
        if e.rmOk c.id then
          match runSweep e imageName port rest with
          | .ok acts => .ok (.stop c.id :: .rm c.id :: acts)
          | .error u => .error u
        else .error ()
      else .error ()
    else runSweep e imageName port rest

/-- `run(config, image_id, app)`: split the image id at the colon (the
two-way unpack raises when the id does not have exactly two parts), stop
and remove every matching container, then `docker run` the new workload. -/
def run (e : RunEng) (containers : List Container) (imageId : String) (app : App) :
    Except Unit (List RunAct) :=
  let parts := splitColon imageId
  if parts.length ≠ 2 then .error ()
  else
    match runSweep e (parts.headD "") app.port containers with
    | .ok acts => if e.runOk then .ok (acts ++ [.launch imageId]) else .error ()
    | .error u => .error u

theorem runSweep_ok (e : RunEng) (imageName : String) (port : Option String)
    (containers : List Container) (acts : List RunAct)
    (h : runSweep e imageName port containers = .ok acts) :
    acts = (containers.filter (fun c => c.matchImage imageName port)).flatMap
      (fun c => [RunAct.stop c.id, RunAct.rm c.id]) := by
  induction containers generalizing acts with
  | nil =>
    simp only [runSweep, Except.ok.injEq] at h
    simp [← h]
  | cons c rest ih =>
    simp only [runSweep] at h
    by_cases hm : c.matchImage imageName port = true
    · rw [if_pos hm] at h
      by_cases hs : e.stopOk c.id = true
      · rw [if_pos hs] at h
        by_cases hr : e.rmOk c.id = true
        · rw [if_pos hr] at h
          cases hrec : runSweep e imageName port rest with
          | ok acts0 =>
            rw [hrec] at h
            simp only [Except.ok.injEq] at h
            subst h
            simp [List.filter_cons, hm, ih acts0 hrec]
          | error u => rw [hrec] at h; exact absurd h (by simp)
        · rw [if_neg hr] at h; exact absurd h (by simp)
      · rw [if_neg hs] at h; exact absurd h (by simp)
    · rw [if_neg hm] at h
      rw [Bool.not_eq_true] at hm
      simp [List.filter_cons, hm, ih acts h]

/-- Claim C2: a listed workload matches the descriptor exactly when its
image name equals the descriptor's name and either it has no observed
host port (name alone suffices, whatever the descriptor's port) or its
observed port equals the descriptor's declared port; and when `run`
succeeds, its engine actions are a stop followed by a remove for every
matching workload — all of them, in listing order — followed by the
single launch of the new workload, which therefore comes last. -/
theorem run_replaces_matches (e : RunEng) (containers : List Container)
    (imageId : String) (app : App) (acts : List RunAct)
    (h : run e containers imageId app = .ok acts) :
    (∀ (c : Container) (n : String) (p : Option String),
      c.matchImage n p = true ↔ (c.image = n ∧ (c.port = none ∨ c.port = p))) ∧
    acts =
      ((containers.filter
          (fun c => c.matchImage ((splitColon imageId).headD "") app.port)).flatMap
        (fun c => [RunAct.stop c.id, RunAct.rm c.id])) ++ [RunAct.launch imageId] := by
  constructor
  · intro c n p
    simp only [Container.matchImage]
    by_cases hi : c.image = n
    · rw [if_neg (by simp [hi])]
      cases hp : c.port with
      | none => simp [hi]
      | some q =>
        constructor
        · intro hb
          exact ⟨hi, Or.inr ((eq_of_beq hb).symm)⟩
        · rintro ⟨-, hq | hq⟩
          · exact absurd hq (by simp)
          · rw [← hq]
            simp
    · rw [if_pos (by simp [hi])]
      simp [hi]
  · simp only [run] at h
    by_cases hlen : (splitColon imageId).length = 2
    · rw [if_neg (by simp [hlen])] at h
      cases hs : runSweep e ((splitColon imageId).headD "") app.port containers with
      | ok acts0 =>
        rw [hs] at h
        by_cases hr : e.runOk = true
        · simp only [hr, if_true] at h
          simp only [Except.ok.injEq] at h
          subst h
          rw [runSweep_ok e _ _ containers acts0 hs]
        · simp [hr] at h
      | error u => rw [hs] at h; simp at h
    · rw [if_pos (by simp [hlen])] at h
      simp at h

/-- Containers observed for the C2 witness: a port-less workload named
`web` (matches on name alone despite the declared port), a workload named
`web` on port 9090 (does not match the declared 8080), and a workload for
a different application. -/
def containersW : List Container :=
  [⟨"c1", "web", some "1.0", none, "Up"⟩,
   ⟨"c2", "web", some "0.9", some "9090", "Up"⟩,
   ⟨"c3", "db", some "1.0", some "8080", "Up"⟩]

/-- Descriptor for the C2 witness: `web` declaring port 8080. -/
def appWebW : App :=
  { name := "web", mode := "nightly", repo := "r", branch := "main", port := some "8080" }

/-- Engine oracles for the C2 witness: every docker call succeeds. -/
def runEngW : RunEng := ⟨fun _ => true, fun _ => true, true⟩

/-! ## The build pipeline (`build`) and its image-tag bookkeeping

The docker image store is the list of currently existing `name:tag`
strings.  `docker build -t t` creates or overwrites tag `t`; `docker rmi
t` drops it.  Every `subprocess.check_call` gets a success oracle in
`Engine`; a non-zero exit raises, modelled as `Except.error`. -/

/-- Effect of `docker build -t t` on the set of existing tags. -/
def insertTag (st : List String) (t : String) : List String :=
  if t ∈ st then st else st ++ [t]

/-- Effect of `docker rmi t` on the set of existing tags. -/
def removeTag (st : List String) (t : String) : List String :=
  st.filter (fun x => x ≠ t)

theorem mem_insertTag {st : List String} {t x : String} :
    x ∈ insertTag st t ↔ x = t ∨ x ∈ st := by
  by_cases h : t ∈ st
  · simp only [insertTag, if_pos h]
    constructor
    · exact Or.inr
    · rintro (rfl | hx)
      · exact h
      · exact hx
  · simp [insertTag, if_neg h, or_comm]

theorem mem_removeTag {st : List String} {t x : String} :
    x ∈ removeTag st t ↔ x ∈ st ∧ x ≠ t := by
  simp [removeTag]

/-- Cancel a common prefix of two string concatenations. -/
theorem append_left_cancel {a b c : String} (h : a ++ b = a ++ c) : b = c := by
  have hd := congrArg String.data h
  simp only [String.data_append] at hd
  have h2 := List.append_cancel_left hd
  cases b; cases c
  exact congrArg String.mk h2

theorem colon_tag_ne {a v w : String} (h : v ≠ w) : a ++ ":" ++ v ≠ a ++ ":" ++ w :=
  fun hc => h (append_left_cancel hc)

theorem tmp_eq_colon (a : String) : a ++ ":tmp" = a ++ ":" ++ "tmp" := by
  rw [String.append_assoc]; rfl

theorem flat_eq_colon (a : String) : a ++ ":flat" = a ++ ":" ++ "flat" := by
  rw [String.append_assoc]; rfl

/-- Success oracles for the external calls one build attempt makes.
`buildOk` and `rmiOk` are per-tag, `tagOk`/`pushOk` per remote tag. -/
structure Engine where
  cloneOk : Bool
  prebuildOk : Bool
  renderOk : Bool
  postRenderOk : Bool
  buildOk : String → Bool
  createOk : Bool
  exportImportOk : Bool
  rmContainerOk : Bool
  rmiOk : String → Bool
  saveOk : Bool
  tagOk : String → Bool
  pushOk : String → Bool

/-- `build(prefix, templates, app)`: clone, resolve the version, optional
custom prebuild, render the manifest, `docker build` the `{name}:tmp`
intermediate, in release mode flatten it to `{name}:flat` and delete
`{name}:tmp`, render the postbuild manifest, `docker build` the final
`{name}:{version}` tag, delete the remaining intermediate, and only then
return the final tag (with the resulting image store). -/
def build (e : Engine) (env : VersionEnv) (st : List String) (app : App) :
    Except Unit (String × List String) :=
  if !e.cloneOk then .error ()
  else
    match make_version env app with
    | .error u => .error u
    | .ok version =>
      if app.buildcmd.isSome && !e.prebuildOk then .error ()
      else if !e.renderOk then .error ()
      else
        let tmpA := app.name ++ ":tmp"
        if !e.buildOk tmpA then .error ()
        else
          let st1 := insertTag st tmpA
          let repack : Except Unit (String × List String) :=
            if app.mode == "release" then
              if !e.createOk then .error ()
              else if !e.exportImportOk then .error ()
              else
                let flatA := app.name ++ ":flat"
                let st2 := insertTag st1 flatA
                if !e.rmContainerOk then .error ()
                else if !e.rmiOk tmpA then .error ()
                else .ok (flatA, removeTag st2 tmpA)
            else .ok (tmpA, st1)
          match repack with
          | .error u => .error u
          | .ok (tmpId, st2) =>
            if !e.postRenderOk then .error ()
            else
              let tagA := app.name ++ ":" ++ version
              if !e.buildOk tagA then .error ()
              else
                let st3 := insertTag st2 tagA
                if !e.rmiOk tmpId then .error ()
                else .ok (tagA, removeTag st3 tmpId)

/-- Claim C4 counterexample: nothing stops the resolved version from
being the literal string `tmp` (here the descriptor fallback version is
`"tmp"` and no git tag exists).  The attempt succeeds, the returned final
tag is `a:tmp`, yet the closing `docker rmi` of the intermediate deletes
that very tag: afterwards `a:tmp` does not exist, so it is false that
after every successful attempt exactly the final tag `{name}:{version}`
remains. -/
theorem build_cleans_intermediates_cex :
    make_version ⟨none, ⟨2024, 1, 1, 0, 0⟩, true⟩
        { name := "a", mode := "x", repo := "r", branch := "m", version := some "tmp" } =
      .ok "tmp" ∧
    build ⟨true, true, true, true, fun _ => true, true, true, true, fun _ => true,
        true, fun _ => true, fun _ => true⟩
        ⟨none, ⟨2024, 1, 1, 0, 0⟩, true⟩ []
        { name := "a", mode := "x", repo := "r", branch := "m", version := some "tmp" } =
      .ok ("a:tmp", []) ∧
    "a:tmp" ∉ ([] : List String) :=
  ⟨rfl, rfl, by simp⟩

/-- Claim C4 as amended: provided the resolved version is neither of the
intermediate suffixes `tmp` and `flat` and neither intermediate tag
pre-exists, a successful build attempt leaves neither `{name}:tmp` nor
`{name}:flat` in the image store, the final `{name}:{version}` tag exists
and is exactly what the attempt added, and the attempt only returns after
the intermediate tag's deletion succeeded (a failing deletion fails the
attempt, so success implies the delete oracle answered true). -/
theorem build_cleans_intermediates (e : Engine) (env : VersionEnv) (st : List String)
    (app : App) (version tag : String) (st2 : List String)
    (hv : make_version env app = .ok version)
    (hvt : version ≠ "tmp") (hvf : version ≠ "flat")
    (h0t : app.name ++ ":tmp" ∉ st) (h0f : app.name ++ ":flat" ∉ st)
    (h : build e env st app = .ok (tag, st2)) :
    tag = app.name ++ ":" ++ version ∧
    app.name ++ ":tmp" ∉ st2 ∧
    app.name ++ ":flat" ∉ st2 ∧
    tag ∈ st2 ∧
    (∀ t, t ∈ st2 ↔ t = tag ∨ t ∈ st) ∧
    e.rmiOk (if app.mode == "release" then app.name ++ ":flat" else app.name ++ ":tmp") =
      true := by
  have htagtmp : app.name ++ ":" ++ version ≠ app.name ++ ":tmp" := by
    rw [tmp_eq_colon]
    exact colon_tag_ne hvt
  have htagflat : app.name ++ ":" ++ version ≠ app.name ++ ":flat" := by
    rw [flat_eq_colon]
    exact colon_tag_ne hvf
  simp only [build, hv] at h
  cases h1 : e.cloneOk with
  | false => simp [h1] at h
  | true =>
  simp only [h1, Bool.not_true, Bool.false_eq_true, if_false] at h
  cases h2 : app.buildcmd.isSome && !e.prebuildOk with
  | true => simp [h2] at h
  | false =>
  simp only [h2, Bool.false_eq_true, if_false] at h
  cases h3 : e.renderOk with
  | false => simp [h3] at h
  | true =>
  simp only [h3, Bool.not_true, Bool.false_eq_true, if_false] at h
  cases h4 : e.buildOk (app.name ++ ":tmp") with
  | false => simp [h4] at h
  | true =>
  simp only [h4, Bool.not_true, Bool.false_eq_true, if_false] at h
  cases hm : app.mode == "release" with
  | false =>
    simp only [hm, Bool.false_eq_true, if_false] at h
    cases h5 : e.postRenderOk with
    | false => simp [h5] at h
    | true =>
    simp only [h5, Bool.not_true, Bool.false_eq_true, if_false] at h
    cases h6 : e.buildOk (app.name ++ ":" ++ version) with
    | false => simp [h6] at h
    | true =>
    simp only [h6, Bool.not_true, Bool.false_eq_true, if_false] at h
    cases h7 : e.rmiOk (app.name ++ ":tmp") with
    | false => simp [h7] at h
    | true =>
    simp only [h7, Bool.not_true, Bool.false_eq_true, if_false, Except.ok.injEq,
      Prod.mk.injEq] at h
    obtain ⟨htag, hst⟩ := h
    subst htag
    subst hst
    have hmem : ∀ t, t ∈ removeTag (insertTag (insertTag st (app.name ++ ":tmp"))
        (app.name ++ ":" ++ version)) (app.name ++ ":tmp") ↔
        t = app.name ++ ":" ++ version ∨ t ∈ st := by
      intro t
      simp only [mem_removeTag, mem_insertTag]
      constructor
      · rintro ⟨rfl | rfl | hts, hne⟩
        · exact Or.inl rfl
        · exact absurd rfl hne
        · exact Or.inr hts
      · rintro (rfl | hts)
        · exact ⟨Or.inl rfl, htagtmp⟩
        · exact ⟨Or.inr (Or.inr hts), fun hh => h0t (hh ▸ hts)⟩
    refine ⟨rfl, ?_, ?_, ?_, hmem, ?_⟩
    · intro hc
      rcases (hmem _).mp hc with hh | hh
      · exact htagtmp hh.symm
      · exact h0t hh
    · intro hc
      rcases (hmem _).mp hc with hh | hh
      · exact htagflat hh.symm
      · exact h0f hh
    · exact (hmem _).mpr (Or.inl rfl)
    · simp only [hm, Bool.false_eq_true, if_false]
      exact h7
  | true =>
    simp only [hm, if_true] at h
    cases h5 : e.createOk with
    | false => simp [h5] at h
    | true =>
    simp only [h5, Bool.not_true, Bool.false_eq_true, if_false] at h
    cases h6 : e.exportImportOk with
    | false => simp [h6] at h
    | true =>
    simp only [h6, Bool.not_true, Bool.false_eq_true, if_false] at h
    cases h7 : e.rmContainerOk with
    | false => simp [h7] at h
    | true =>
    simp only [h7, Bool.not_true, Bool.false_eq_true, if_false] at h
    cases h8 : e.rmiOk (app.name ++ ":tmp") with
    | false => simp [h8] at h
    | true =>
    simp only [h8, Bool.not_true, Bool.false_eq_true, if_false] at h
    cases h9 : e.postRenderOk with
    | false => simp [h9] at h
    | true =>
    simp only [h9, Bool.not_true, Bool.false_eq_true, if_false] at h
    cases h10 : e.buildOk (app.name ++ ":" ++ version) with
    | false => simp [h10] at h
    | true =>
    simp only [h10, Bool.not_true, Bool.false_eq_true, if_false] at h
    cases h11 : e.rmiOk (app.name ++ ":flat") with
    | false => simp [h11] at h
    | true =>
    simp only [h11, Bool.not_true, Bool.false_eq_true, if_false, Except.ok.injEq,
      Prod.mk.injEq] at h
    obtain ⟨htag, hst⟩ := h
    subst htag
    subst hst
    have hflattmp : (app.name ++ ":flat") ≠ (app.name ++ ":tmp") := by
      rw [flat_eq_colon, tmp_eq_colon]
      exact colon_tag_ne (by decide)
    have hmem : ∀ t, t ∈ removeTag (insertTag (removeTag (insertTag
        (insertTag st (app.name ++ ":tmp")) (app.name ++ ":flat")) (app.name ++ ":tmp"))
        (app.name ++ ":" ++ version)) (app.name ++ ":flat") ↔
        t = app.name ++ ":" ++ version ∨ t ∈ st := by
      intro t
      simp only [mem_removeTag, mem_insertTag]
      constructor
      · rintro ⟨rfl | ⟨⟨rfl | rfl | hts, hnt⟩⟩, hne⟩
        · exact Or.inl rfl
        · exact absurd rfl hne
        · exact absurd rfl hnt
        · exact Or.inr hts
      · rintro (rfl | hts)
        · exact ⟨Or.inl rfl, htagflat⟩
        · exact ⟨Or.inr ⟨Or.inr (Or.inr hts), fun hh => h0t (hh ▸ hts)⟩,
            fun hh => h0f (hh ▸ hts)⟩
    refine ⟨rfl, ?_, ?_, ?_, hmem, ?_⟩
    · intro hc
      rcases (hmem _).mp hc with hh | hh
      · exact htagtmp hh.symm
      · exact h0t hh
    · intro hc
      rcases (hmem _).mp hc with hh | hh
      · exact htagflat hh.symm
      · exact h0f hh
    · exact (hmem _).mpr (Or.inl rfl)
    · simp only [hm, if_true]
      exact h11

/-- Release-mode descriptor for the C4 witness. -/
def appRelW : App :=
  { name := "a", mode := "release", repo := "r", branch := "m", version := some "2.0" }

/-- Environment for the C4 witness: no git tag, so the fallback version
`2.0` is used. -/
def envRelW : VersionEnv := ⟨none, ⟨2024, 1, 1, 0, 0⟩, true⟩

/-- Engine for the C4 witness: every external call succeeds. -/
def engAllOkW : Engine :=
  ⟨true, true, true, true, fun _ => true, true, true, true, fun _ => true,
    true, fun _ => true, fun _ => true⟩

theorem build_cleans_intermediates_witness :
    "a" ++ ":tmp" ∉ ["a:2.0"] ∧ "a" ++ ":flat" ∉ ["a:2.0"] ∧
    ("a" ++ ":" ++ "2.0") ∈ ["a:2.0"] := by
  have h := build_cleans_intermediates engAllOkW envRelW [] appRelW "2.0"
    ("a" ++ ":" ++ "2.0") ["a:2.0"] rfl (by decide) (by decide) (by simp) (by simp) rfl
  exact ⟨h.2.1, h.2.2.1, h.2.2.2.1⟩

/-! ## One attempt (`make_a_try`)

`make_a_try` wraps the whole per-descriptor pipeline — build, optional
image save, registry pushes, and for nightly mode the workload
replacement — in one `try`/`except Exception` block and always returns a
result record. -/

/-- The options `make_a_try` consults. -/
structure TryOpts where
  imagedir : String
  registries : List String

/-- One `BuildAttemptResult` record (the wall-clock `build_time` field is
out of scope). -/
structure BuildAttemptResult where
  success : Bool
  app : String
  message : String
  deriving Repr, DecidableEq

/-- The registry push loop: `docker tag` then `docker push` per remote
tag, each fallible. -/
def pushAll (e : Engine) (imageId : String) : List String → Except Unit Unit
  | [] => .ok ()
  | r :: rest =>
    let remote := r ++ "/" ++ imageId
    if !e.tagOk remote then .error ()
    else if !e.pushOk remote then .error ()
    else pushAll e imageId rest

/-- The body of `make_a_try`'s `try` block: build, save the image archive
when an image directory is configured, push to each registry, and in
nightly mode replace and launch the workload. -/
def attemptBody (e : Engine) (re : RunEng) (containers : List Container)
    (env : VersionEnv) (opts : TryOpts) (st : List String) (app : App) :
    Except Unit String :=
  match build e env st app with
  | .error u => .error u
  | .ok (imageId, _st2) =>
    if opts.imagedir != "." && !e.saveOk then .error ()
    else
      match pushAll e imageId opts.registries with
      | .error u => .error u
      | .ok _ =>
        if app.mode == "nightly" then
          match run re containers imageId app with
          | .ok _ => .ok imageId
          | .error u => .error u
        else .ok imageId

/-- `make_a_try`: any exception inside the attempt is caught at this
boundary and becomes a failed result with the fixed user-facing message;
on success the message is the version part `image_id.split(':')[1]`
(whose own index error, were it possible, is also inside the `try`). -/
def make_a_try (e : Engine) (re : RunEng) (containers : List Container)
    (env : VersionEnv) (opts : TryOpts) (st : List String) (app : App) :
    BuildAttemptResult :=
  match attemptBody e re containers env opts st app with
  | .ok imageId =>
    match (splitColon imageId)[1]? with
    | some v => ⟨true, app.name, v⟩
    | none => ⟨false, app.name, "Ошибка сборки!"⟩
  | .error _ => ⟨false, app.name, "Ошибка сборки!"⟩

/-- The per-round build sweep of `process_builds`: one attempt per
descriptor, in order. -/
def processRound (e : Engine) (re : RunEng) (containers : List Container)
    (env : VersionEnv) (opts : TryOpts) (st : List String) (apps : List App) :
    List BuildAttemptResult :=
  apps.map (make_a_try e re containers env opts st)

theorem make_a_try_app_eq (e : Engine) (re : RunEng) (containers : List Container)
    (env : VersionEnv) (opts : TryOpts) (st : List String) (app : App) :
    (make_a_try e re containers env opts st app).app = app.name := by
  cases hb : attemptBody e re containers env opts st app with
  | ok v =>
    cases hsp : (splitColon v)[1]? with
    | some m => simp [make_a_try, hb, hsp]
    | none => simp [make_a_try, hb, hsp]
  | error u => simp [make_a_try, hb]

/-- Claim C8: whatever the engine does — any failure in any pipeline
stage or in the launch, for any descriptor — `make_a_try` returns a
failed `BuildAttemptResult` carrying the fixed user-facing message
instead of propagating; on success it returns a successful result whose
message is the version part of the image tag; and consequently the round
sweep produces exactly one result per descriptor, every remaining
descriptor being attempted no matter how the others fail. -/
theorem make_a_try_contains_failures (e : Engine) (re : RunEng)
    (containers : List Container) (env : VersionEnv) (opts : TryOpts)
    (st : List String) (app : App) :
    ((attemptBody e re containers env opts st app).isOk = false →
      make_a_try e re containers env opts st app =
        ⟨false, app.name, "Ошибка сборки!"⟩) ∧
    (∀ v m, attemptBody e re containers env opts st app = .ok v →
      (splitColon v)[1]? = some m →
      make_a_try e re containers env opts st app = ⟨true, app.name, m⟩) ∧
    (∀ apps : List App,
      (processRound e re containers env opts st apps).map (fun r => r.app) =
        apps.map App.name) := by
  refine ⟨?_, ?_, ?_⟩
  · intro hfail
    cases hb : attemptBody e re containers env opts st app with
    | ok v =>
      rw [hb] at hfail
      simp [Except.isOk, Except.toBool] at hfail
    | error u => simp [make_a_try, hb]
  · intro v m hok hm
    simp [make_a_try, hok, hm]
  · intro apps
    simp [processRound, make_a_try_app_eq]

/-- All-failing engine for the C8 witness: even the clone fails. -/
def engFailW : Engine :=
  ⟨false, false, false, false, fun _ => false, false, false, false, fun _ => false,
    false, fun _ => false, fun _ => false⟩

/-- Failing run-stage oracles for the C8 witness. -/
def runEngFailW : RunEng := ⟨fun _ => false, fun _ => false, false⟩

/-- Environment for the C8 witness. -/
def envFailW : VersionEnv := ⟨none, ⟨2024, 1, 1, 0, 0⟩, true⟩

/-- Two descriptors for the C8 witness round. -/
def appsFailW : List App :=
  [{ name := "web", mode := "nightly", repo := "r", branch := "m" },
   { name := "db", mode := "nightly", repo := "r", branch := "m" }]

theorem make_a_try_contains_failures_witness :
    make_a_try engFailW runEngFailW [] envFailW ⟨".", []⟩ []
        { name := "web", mode := "nightly", repo := "r", branch := "m" } =
      ⟨false, "web", "Ошибка сборки!"⟩ ∧
    (processRound engFailW runEngFailW [] envFailW ⟨".", []⟩ [] appsFailW).map
        (fun r => r.app) =
      appsFailW.map App.name := by
  have h := make_a_try_contains_failures engFailW runEngFailW [] envFailW ⟨".", []⟩ []
    { name := "web", mode := "nightly", repo := "r", branch := "m" }
  exact ⟨h.1 rfl, h.2.2 appsFailW⟩

theorem run_replaces_matches_witness :
    Container.matchImage ⟨"c1", "web", some "1.0", none, "Up"⟩ "web" (some "8080") = true ∧
    [RunAct.stop "c1", RunAct.rm "c1", RunAct.launch "web:1.1"] =
      ((containersW.filter
          (fun c => c.matchImage ((splitColon "web:1.1").headD "") appWebW.port)).flatMap
        (fun c => [RunAct.stop c.id, RunAct.rm c.id])) ++ [RunAct.launch "web:1.1"] := by
  have h := run_replaces_matches runEngW containersW "web:1.1" appWebW
    [RunAct.stop "c1", RunAct.rm "c1", RunAct.launch "web:1.1"] rfl
  exact ⟨(h.1 ⟨"c1", "web", some "1.0", none, "Up"⟩ "web" (some "8080")).2 ⟨rfl, Or.inl rfl⟩,
    h.2⟩

/-! ## The retry controller (`process_builds` and `main`)

The control loop is embedded over an abstract descriptor type `α` with a
success oracle `oracle i a` saying whether descriptor `a`'s attempt in
round `i` succeeds (rounds are numbered from 0).  `main` runs up to
`tries` rounds; each round builds every descriptor of the current working
set (when `--build` was passed), keeps the failed ones as the next
working set, raises when a report is requested without an `smtp` config
section (after the round's builds), rotates when the age threshold is
truthy, and breaks once the working set is empty. -/

/-- One abstract per-descriptor result of a round. -/
structure BRes (α : Type) where
  app : α
  success : Bool
  deriving Repr, DecidableEq

/-- What one executed round did: its results and whether the rotation
policy was invoked. -/
structure RoundOut (α : Type) where
  results : List (BRes α)
  rotated : Bool
  deriving Repr, DecidableEq

/-- The whole run: the executed rounds in order, and whether the run was
aborted by the missing-smtp exception. -/
structure RunOut (α : Type) where
  rounds : List (RoundOut α)
  aborted : Bool
  deriving Repr, DecidableEq

/-- The command-line options the loop consults.  `maxDays` is `none` when
`--rotate` was not passed (python default `False`), `some n` for
`--rotate n`. -/
structure Opts where
  build : Bool
  sendMail : Bool
  smtpPresent : Bool
  maxDays : Option Int
  deriving Repr, DecidableEq

/-- Python truthiness of `options.max_days`: `False` and `0` are falsy. -/
def truthyDays : Option Int → Bool
  | none => false
  | some n => n != 0

/-- One round's build sweep: one result per descriptor of the working
set, in order. -/
def buildRound {α : Type} (oracle : Nat → α → Bool) (i : Nat) (apps : List α) :
    List (BRes α) :=
  apps.map (fun a => ⟨a, oracle i a⟩)

/-- The `failed_apps` list a round accumulates: the descriptors whose
result was not a success, in order. -/
def failedApps {α : Type} (oracle : Nat → α → Bool) (i : Nat) (apps : List α) :
    List α :=
  apps.filter (fun a => !oracle i a)

/-- `process_builds(apps, config, options)`: build every descriptor when
`--build` was passed (collecting results and failures), then rotate when
the age threshold is truthy.  Returns the round record and the failed
descriptors.  Rotation is recorded here as an invocation flag only: this
is the restriction of the full `process_buildsR` below to calls whose
rotation pass completes — the `docker rmi` failure that raises out of
`process_builds` is the third component of `process_buildsR`. -/
def process_builds {α : Type} (oracle : Nat → α → Bool) (opts : Opts) (i : Nat)
    (apps : List α) : RoundOut α × List α :=
  (⟨if opts.build then buildRound oracle i apps else [], truthyDays opts.maxDays⟩,
   if opts.build then failedApps oracle i apps else [])

/-- The `for i in range(tries)` loop of `main`: run a round, raise the
missing-smtp exception when results are non-empty, mail was requested and
no smtp section exists (aborting the run), break when no descriptor
failed, else continue on the failed subset.  This is the loop under the
assumption that every invoked rotation pass completes; the full model in
which an uncaught rotation failure kills the run mid-loop is `mainLoopR`
below, and `mainLoopR_no_rotfail` proves this loop is its restriction. -/
def mainLoop {α : Type} (oracle : Nat → α → Bool) (opts : Opts) :
    Nat → Nat → List α → RunOut α
  | _, 0, _ => ⟨[], false⟩
  | i, fuel + 1, apps =>
    let pr := process_builds oracle opts i apps
    if !pr.1.results.isEmpty && opts.sendMail && !opts.smtpPresent then
      ⟨[pr.1], true⟩
    else if pr.2.isEmpty then ⟨[pr.1], false⟩
    else
      let rest := mainLoop oracle opts (i + 1) fuel pr.2
      ⟨pr.1 :: rest.rounds, rest.aborted⟩

/-- `main`: up to `tries` rounds starting from the full requested batch. -/
def main {α : Type} (oracle : Nat → α → Bool) (opts : Opts) (tries : Nat)
    (apps : List α) : RunOut α :=
  mainLoop oracle opts 0 tries apps

/-- The working set at the start of round `i + k` when round `i` started
with `apps`: each round keeps exactly the descriptors that just failed. -/
def wsAt {α : Type} (oracle : Nat → α → Bool) : Nat → Nat → List α → List α
  | _, 0, apps => apps
  | i, k + 1, apps => wsAt oracle (i + 1) k (failedApps oracle i apps)

/-- `compose_mail(build_results)`: the subject's OK/FAIL flag is OK
exactly when every result succeeded, and the body has one line per
result. -/
def compose_mail {α : Type} (results : List (BRes α)) : Bool × List (α × Bool) :=
  (results.all (fun r => r.success), results.map (fun r => (r.app, r.success)))

theorem buildRound_map_app {α : Type} (oracle : Nat → α → Bool) (i : Nat)
    (apps : List α) : (buildRound oracle i apps).map (fun b => b.app) = apps := by
  simp only [buildRound, List.map_map]
  exact List.map_id apps

theorem filter_buildRound {α : Type} (oracle : Nat → α → Bool) (i : Nat)
    (apps : List α) :
    (buildRound oracle i apps).filter (fun b => !b.success) =
      (failedApps oracle i apps).map (fun a => ⟨a, oracle i a⟩) := by
  simp [buildRound, failedApps, List.filter_map]
  rfl

theorem wsAt_succ_last {α : Type} (oracle : Nat → α → Bool) (i k : Nat)
    (apps : List α) :
    wsAt oracle i (k + 1) apps = failedApps oracle (i + k) (wsAt oracle i k apps) := by
  induction k generalizing i apps with
  | zero => simp [wsAt]
  | succ k ih =>
    have h1 : wsAt oracle i (k + 2) apps =
        wsAt oracle (i + 1) (k + 1) (failedApps oracle i apps) := rfl
    rw [h1, ih]
    have h2 : i + 1 + k = i + (k + 1) := by omega
    rw [h2]
    rfl

theorem wsAt_subset {α : Type} (oracle : Nat → α → Bool) (i k : Nat)
    (apps : List α) : wsAt oracle i (k + 1) apps ⊆ wsAt oracle i k apps := by
  rw [wsAt_succ_last]
  exact fun a ha => List.mem_of_mem_filter ha

theorem wsAt_mono {α : Type} (oracle : Nat → α → Bool) (i : Nat) {k m : Nat}
    (hkm : k ≤ m) (apps : List α) :
    wsAt oracle i m apps ⊆ wsAt oracle i k apps := by
  induction m with
  | zero =>
    have : k = 0 := Nat.le_zero.mp hkm
    subst this
    exact fun a ha => ha
  | succ m ih =>
    rcases Nat.lt_or_ge k (m + 1) with hlt | hge
    · exact fun a ha => ih (Nat.lt_succ_iff.mp hlt) (wsAt_subset oracle i m apps ha)
    · have : k = m + 1 := Nat.le_antisymm hkm hge
      subst this
      exact fun a ha => ha

theorem mem_wsAt_succ {α : Type} (oracle : Nat → α → Bool) (i k : Nat)
    (apps : List α) {a : α} (ha : a ∈ wsAt oracle i (k + 1) apps) :
    oracle (i + k) a = false := by
  rw [wsAt_succ_last] at ha
  have := List.of_mem_filter ha
  simpa using this

theorem mainLoop_rounds_ne_nil {α : Type} (oracle : Nat → α → Bool) (opts : Opts)
    (i fuel : Nat) (apps : List α) (hf : 0 < fuel) :
    (mainLoop oracle opts i fuel apps).rounds ≠ [] := by
  cases fuel with
  | zero => omega
  | succ n =>
    simp only [mainLoop]
    split
    · simp
    · split
      · simp
      · simp

theorem mainLoop_len_le {α : Type} (oracle : Nat → α → Bool) (opts : Opts)
    (i fuel : Nat) (apps : List α) :
    (mainLoop oracle opts i fuel apps).rounds.length ≤ fuel := by
  induction fuel generalizing i apps with
  | zero => simp [mainLoop]
  | succ n ih =>
    simp only [mainLoop]
    split
    · simp
    · split
      · simp
      · simpa using Nat.succ_le_succ (ih (i + 1) _)

theorem mainLoop_rotated {α : Type} (oracle : Nat → α → Bool) (opts : Opts)
    (i fuel : Nat) (apps : List α) :
    ∀ r ∈ (mainLoop oracle opts i fuel apps).rounds,
      r.rotated = truthyDays opts.maxDays := by
  induction fuel generalizing i apps with
  | zero => simp [mainLoop]
  | succ n ih =>
    simp only [mainLoop]
    split
    · intro r hr
      simp only [List.mem_singleton] at hr
      subst hr
      rfl
    · split
      · intro r hr
        simp only [List.mem_singleton] at hr
        subst hr
        rfl
      · intro r hr
        simp only [List.mem_cons] at hr
        rcases hr with rfl | hr
        · rfl
        · exact ih (i + 1) _ r hr

theorem mainLoop_no_abort {α : Type} (oracle : Nat → α → Bool) (opts : Opts)
    (i fuel : Nat) (apps : List α) (hm : opts.sendMail = true → opts.smtpPresent = true) :
    (mainLoop oracle opts i fuel apps).aborted = false := by
  induction fuel generalizing i apps with
  | zero => simp [mainLoop]
  | succ n ih =>
    simp only [mainLoop]
    split
    · next hc =>
      exfalso
      cases hsm : opts.sendMail with
      | false => rw [hsm] at hc; simp at hc
      | true => rw [hm hsm] at hc; simp at hc
    · split
      · rfl
      · exact ih (i + 1) _

theorem mainLoop_succ_abort {α : Type} (oracle : Nat → α → Bool) (opts : Opts)
    (i n : Nat) (apps : List α)
    (hc1 : (!(process_builds oracle opts i apps).1.results.isEmpty && opts.sendMail &&
      !opts.smtpPresent) = true) :
    mainLoop oracle opts i (n + 1) apps =
      ⟨[(process_builds oracle opts i apps).1], true⟩ := by
  simp only [mainLoop]
  rw [if_pos hc1]

theorem mainLoop_succ_stop {α : Type} (oracle : Nat → α → Bool) (opts : Opts)
    (i n : Nat) (apps : List α)
    (hc1 : (!(process_builds oracle opts i apps).1.results.isEmpty && opts.sendMail &&
      !opts.smtpPresent) = false)
    (hc2 : (process_builds oracle opts i apps).2.isEmpty = true) :
    mainLoop oracle opts i (n + 1) apps =
      ⟨[(process_builds oracle opts i apps).1], false⟩ := by
  simp only [mainLoop]
  rw [if_neg (by simp [hc1]), if_pos hc2]

theorem mainLoop_succ_cont {α : Type} (oracle : Nat → α → Bool) (opts : Opts)
    (i n : Nat) (apps : List α)
    (hc1 : (!(process_builds oracle opts i apps).1.results.isEmpty && opts.sendMail &&
      !opts.smtpPresent) = false)
    (hc2 : (process_builds oracle opts i apps).2.isEmpty = false) :
    mainLoop oracle opts i (n + 1) apps =
      ⟨(process_builds oracle opts i apps).1 ::
          (mainLoop oracle opts (i + 1) n (process_builds oracle opts i apps).2).rounds,
        (mainLoop oracle opts (i + 1) n (process_builds oracle opts i apps).2).aborted⟩ := by
  simp only [mainLoop]
  rw [if_neg (by simp [hc1]), if_neg (by simp [hc2])]

theorem mainLoop_results {α : Type} (oracle : Nat → α → Bool) (opts : Opts)
    (hb : opts.build = true) (i fuel : Nat) (apps : List α) :
    ∀ k, k < (mainLoop oracle opts i fuel apps).rounds.length →
      ((mainLoop oracle opts i fuel apps).rounds.getD k ⟨[], false⟩).results =
        buildRound oracle (i + k) (wsAt oracle i k apps) := by
  induction fuel generalizing i apps with
  | zero => intro k hk; simp [mainLoop] at hk
  | succ n ih =>
    intro k hk
    by_cases hc1 : (!(process_builds oracle opts i apps).1.results.isEmpty &&
        opts.sendMail && !opts.smtpPresent) = true
    · rw [mainLoop_succ_abort oracle opts i n apps hc1] at hk ⊢
      simp only [List.length_singleton] at hk
      have hk0 : k = 0 := by omega
      subst hk0
      simp [process_builds, hb, wsAt]
    · rw [Bool.not_eq_true] at hc1
      by_cases hc2 : (process_builds oracle opts i apps).2.isEmpty = true
      · rw [mainLoop_succ_stop oracle opts i n apps hc1 hc2] at hk ⊢
        simp only [List.length_singleton] at hk
        have hk0 : k = 0 := by omega
        subst hk0
        simp [process_builds, hb, wsAt]
      · rw [Bool.not_eq_true] at hc2
        rw [mainLoop_succ_cont oracle opts i n apps hc1 hc2] at hk ⊢
        cases k with
        | zero => simp [process_builds, hb, wsAt]
        | succ k =>
          simp only [List.length_cons, Nat.add_lt_add_iff_right] at hk
          have hres := ih (i + 1) (process_builds oracle opts i apps).2 k hk
          simp only [List.getD_cons_succ]
          rw [hres]
          have hpr2 : (process_builds oracle opts i apps).2 = failedApps oracle i apps := by
            simp [process_builds, hb]
          rw [hpr2]
          have harith : i + 1 + k = i + (k + 1) := by omega
          rw [harith]
          rfl

theorem mainLoop_early {α : Type} (oracle : Nat → α → Bool) (opts : Opts)
    (hb : opts.build = true) (i fuel : Nat) (apps : List α)
    (ha : (mainLoop oracle opts i fuel apps).aborted = false)
    (hl : (mainLoop oracle opts i fuel apps).rounds.length < fuel) :
    ((mainLoop oracle opts i fuel apps).rounds.getD
        ((mainLoop oracle opts i fuel apps).rounds.length - 1) ⟨[], false⟩).results.filter
      (fun b => !b.success) = [] := by
  induction fuel generalizing i apps with
  | zero => simp [mainLoop] at hl
  | succ n ih =>
    by_cases hc1 : (!(process_builds oracle opts i apps).1.results.isEmpty &&
        opts.sendMail && !opts.smtpPresent) = true
    · rw [mainLoop_succ_abort oracle opts i n apps hc1] at ha
      simp at ha
    · rw [Bool.not_eq_true] at hc1
      by_cases hc2 : (process_builds oracle opts i apps).2.isEmpty = true
      · rw [mainLoop_succ_stop oracle opts i n apps hc1 hc2]
        have hpr2 : (process_builds oracle opts i apps).2 = failedApps oracle i apps := by
          simp [process_builds, hb]
        rw [hpr2] at hc2
        have hfe : failedApps oracle i apps = [] := List.isEmpty_iff.mp hc2
        have hpr1 : (process_builds oracle opts i apps).1.results =
            buildRound oracle i apps := by
          simp [process_builds, hb]
        simp only [List.length_singleton, Nat.sub_self, List.getD_cons_zero]
        rw [hpr1, filter_buildRound, hfe]
        rfl
      · rw [Bool.not_eq_true] at hc2
        rw [mainLoop_succ_cont oracle opts i n apps hc1 hc2] at ha hl ⊢
        simp only at ha hl ⊢
        have hlen : (mainLoop oracle opts (i + 1) n
            (process_builds oracle opts i apps).2).rounds.length < n := by
          simpa using hl
        have hrest := ih (i + 1) (process_builds oracle opts i apps).2 ha hlen
        have hn : 0 < n := by omega
        have hne := mainLoop_rounds_ne_nil oracle opts (i + 1) n
          (process_builds oracle opts i apps).2 hn
        have hpos : 0 <
            (mainLoop oracle opts (i + 1) n (process_builds oracle opts i apps).2).rounds.length :=
          List.length_pos.mpr hne
        obtain ⟨m, hm⟩ : ∃ m,
            (mainLoop oracle opts (i + 1) n (process_builds oracle opts i apps).2).rounds.length =
              m + 1 :=
          ⟨(mainLoop oracle opts (i + 1) n
              (process_builds oracle opts i apps).2).rounds.length - 1, by omega⟩
        simp only [List.length_cons, Nat.add_sub_cancel]
        rw [hm]
        simp only [List.getD_cons_succ]
        rw [hm] at hrest
        simpa using hrest

theorem mainLoop_full {α : Type} (oracle : Nat → α → Bool) (opts : Opts)
    (hb : opts.build = true) (i fuel : Nat) (apps : List α)
    (ha : (mainLoop oracle opts i fuel apps).aborted = false)
    (hall : ∀ r ∈ (mainLoop oracle opts i fuel apps).rounds,
      r.results.filter (fun b => !b.success) ≠ []) :
    (mainLoop oracle opts i fuel apps).rounds.length = fuel := by
  induction fuel generalizing i apps with
  | zero => rfl
  | succ n ih =>
    by_cases hc1 : (!(process_builds oracle opts i apps).1.results.isEmpty &&
        opts.sendMail && !opts.smtpPresent) = true
    · rw [mainLoop_succ_abort oracle opts i n apps hc1] at ha
      simp at ha
    · rw [Bool.not_eq_true] at hc1
      by_cases hc2 : (process_builds oracle opts i apps).2.isEmpty = true
      · exfalso
        rw [mainLoop_succ_stop oracle opts i n apps hc1 hc2] at hall
        have hpr2 : (process_builds oracle opts i apps).2 = failedApps oracle i apps := by
          simp [process_builds, hb]
        rw [hpr2] at hc2
        have hfe : failedApps oracle i apps = [] := List.isEmpty_iff.mp hc2
        have hpr1 : (process_builds oracle opts i apps).1.results =
            buildRound oracle i apps := by
          simp [process_builds, hb]
        refine hall (process_builds oracle opts i apps).1 (by simp) ?_
        rw [hpr1, filter_buildRound, hfe]
        rfl
      · rw [Bool.not_eq_true] at hc2
        rw [mainLoop_succ_cont oracle opts i n apps hc1 hc2] at ha hall ⊢
        simp only at ha hall ⊢
        have := ih (i + 1) (process_builds oracle opts i apps).2 ha
          (fun r hr => hall r (List.mem_cons_of_mem _ hr))
        simp [this]

/-! ## The retry controller with the fatal rotation-failure path

`rotate` is called inside `process_builds` (line 311) and its failed
`docker rmi` raises with no handler in `process_builds` or `main` (see
`rotate_failure_fatal`), so the run can die mid-loop.
`process_buildsR`/`mainLoopR` model that path; the per-round oracle
`rotOk i` says whether the rotation pass of round `i` completes. -/

/-- The whole run under the full model: the executed rounds, whether the
missing-smtp exception aborted it, and whether an uncaught rotation
failure killed it. -/
structure RunOutR (α : Type) where
  rounds : List (RoundOut α)
  aborted : Bool
  crashed : Bool
  deriving Repr, DecidableEq

/-- `process_builds(apps, config, options)` in full: build every
descriptor when `--build` was passed, then, when the age threshold is
truthy, run the rotation pass — whose failed `docker rmi` raises out of
`process_builds` uncaught.  The third component records that escape:
`true` means the round's builds ran and then the rotation exception ended
the call, so the caller never receives the results or the failed
descriptors. -/
def process_buildsR {α : Type} (oracle : Nat → α → Bool) (rotOk : Nat → Bool)
    (opts : Opts) (i : Nat) (apps : List α) : RoundOut α × List α × Bool :=
  (⟨if opts.build then buildRound oracle i apps else [], truthyDays opts.maxDays⟩,
   if opts.build then failedApps oracle i apps else [],
   truthyDays opts.maxDays && !rotOk i)

theorem process_buildsR_fst {α : Type} (oracle : Nat → α → Bool) (rotOk : Nat → Bool)
    (opts : Opts) (i : Nat) (apps : List α) :
    (process_buildsR oracle rotOk opts i apps).1 = (process_builds oracle opts i apps).1 :=
  rfl

theorem process_buildsR_snd {α : Type} (oracle : Nat → α → Bool) (rotOk : Nat → Bool)
    (opts : Opts) (i : Nat) (apps : List α) :
    (process_buildsR oracle rotOk opts i apps).2.1 = (process_builds oracle opts i apps).2 :=
  rfl

/-- The `for i in range(tries)` loop of `main` in full: a rotation pass
that raises escapes `process_builds` and kills the run right there
(`crashed`), before the missing-smtp check and the empty-working-set
break of that iteration.  The crashed round's builds did execute (their
side effects happened) and are recorded, even though the exception
forfeits them before the mail and working-set steps. -/
def mainLoopR {α : Type} (oracle : Nat → α → Bool) (rotOk : Nat → Bool) (opts : Opts) :
    Nat → Nat → List α → RunOutR α
  | _, 0, _ => ⟨[], false, false⟩
  | i, fuel + 1, apps =>
    let pr := process_buildsR oracle rotOk opts i apps
    if pr.2.2 then ⟨[pr.1], false, true⟩
    else if !pr.1.results.isEmpty && opts.sendMail && !opts.smtpPresent then
      ⟨[pr.1], true, false⟩
    else if pr.2.1.isEmpty then ⟨[pr.1], false, false⟩
    else
      let rest := mainLoopR oracle rotOk opts (i + 1) fuel pr.2.1
      ⟨pr.1 :: rest.rounds, rest.aborted, rest.crashed⟩

/-- `main` under the full model. -/
def mainR {α : Type} (oracle : Nat → α → Bool) (rotOk : Nat → Bool) (opts : Opts)
    (tries : Nat) (apps : List α) : RunOutR α :=
  mainLoopR oracle rotOk opts 0 tries apps

theorem mainLoopR_succ_crash {α : Type} (oracle : Nat → α → Bool) (rotOk : Nat → Bool)
    (opts : Opts) (i n : Nat) (apps : List α)
    (hcr : (process_buildsR oracle rotOk opts i apps).2.2 = true) :
    mainLoopR oracle rotOk opts i (n + 1) apps =
      ⟨[(process_buildsR oracle rotOk opts i apps).1], false, true⟩ := by
  simp only [mainLoopR]
  rw [if_pos hcr]

theorem mainLoopR_succ_abort {α : Type} (oracle : Nat → α → Bool) (rotOk : Nat → Bool)
    (opts : Opts) (i n : Nat) (apps : List α)
    (hcr : (process_buildsR oracle rotOk opts i apps).2.2 = false)
    (hc2 : (!(process_buildsR oracle rotOk opts i apps).1.results.isEmpty && opts.sendMail &&
      !opts.smtpPresent) = true) :
    mainLoopR oracle rotOk opts i (n + 1) apps =
      ⟨[(process_buildsR oracle rotOk opts i apps).1], true, false⟩ := by
  simp only [mainLoopR]
  rw [if_neg (by simp [hcr]), if_pos hc2]

theorem mainLoopR_succ_stop {α : Type} (oracle : Nat → α → Bool) (rotOk : Nat → Bool)
    (opts : Opts) (i n : Nat) (apps : List α)
    (hcr : (process_buildsR oracle rotOk opts i apps).2.2 = false)
    (hc2 : (!(process_buildsR oracle rotOk opts i apps).1.results.isEmpty && opts.sendMail &&
      !opts.smtpPresent) = false)
    (hc3 : (process_buildsR oracle rotOk opts i apps).2.1.isEmpty = true) :
    mainLoopR oracle rotOk opts i (n + 1) apps =
      ⟨[(process_buildsR oracle rotOk opts i apps).1], false, false⟩ := by
  simp only [mainLoopR]
  rw [if_neg (by simp [hcr]), if_neg (by simp [hc2]), if_pos hc3]

theorem mainLoopR_succ_cont {α : Type} (oracle : Nat → α → Bool) (rotOk : Nat → Bool)
    (opts : Opts) (i n : Nat) (apps : List α)
    (hcr : (process_buildsR oracle rotOk opts i apps).2.2 = false)
    (hc2 : (!(process_buildsR oracle rotOk opts i apps).1.results.isEmpty && opts.sendMail &&
      !opts.smtpPresent) = false)
    (hc3 : (process_buildsR oracle rotOk opts i apps).2.1.isEmpty = false) :
    mainLoopR oracle rotOk opts i (n + 1) apps =
      ⟨(process_buildsR oracle rotOk opts i apps).1 ::
          (mainLoopR oracle rotOk opts (i + 1) n
            (process_buildsR oracle rotOk opts i apps).2.1).rounds,
        (mainLoopR oracle rotOk opts (i + 1) n
          (process_buildsR oracle rotOk opts i apps).2.1).aborted,
        (mainLoopR oracle rotOk opts (i + 1) n
          (process_buildsR oracle rotOk opts i apps).2.1).crashed⟩ := by
  simp only [mainLoopR]
  rw [if_neg (by simp [hcr]), if_neg (by simp [hc2]), if_neg (by simp [hc3])]

theorem mainLoopR_len_le {α : Type} (oracle : Nat → α → Bool) (rotOk : Nat → Bool)
    (opts : Opts) (i fuel : Nat) (apps : List α) :
    (mainLoopR oracle rotOk opts i fuel apps).rounds.length ≤ fuel := by
  induction fuel generalizing i apps with
  | zero => simp [mainLoopR]
  | succ n ih =>
    simp only [mainLoopR]
    split
    · simp
    · split
      · simp
      · split
        · simp
        · simpa using Nat.succ_le_succ (ih (i + 1) _)

theorem mainLoopR_results {α : Type} (oracle : Nat → α → Bool) (rotOk : Nat → Bool)
    (opts : Opts) (hb : opts.build = true) (i fuel : Nat) (apps : List α) :
    ∀ k, k < (mainLoopR oracle rotOk opts i fuel apps).rounds.length →
      ((mainLoopR oracle rotOk opts i fuel apps).rounds.getD k ⟨[], false⟩).results =
        buildRound oracle (i + k) (wsAt oracle i k apps) := by
  induction fuel generalizing i apps with
  | zero => intro k hk; simp [mainLoopR] at hk
  | succ n ih =>
    intro k hk
    by_cases hcr : (process_buildsR oracle rotOk opts i apps).2.2 = true
    · rw [mainLoopR_succ_crash oracle rotOk opts i n apps hcr] at hk ⊢
      simp only [List.length_singleton] at hk
      have hk0 : k = 0 := by omega
      subst hk0
      simp [process_buildsR, hb, wsAt]
    · rw [Bool.not_eq_true] at hcr
      by_cases hc2 : (!(process_buildsR oracle rotOk opts i apps).1.results.isEmpty &&
          opts.sendMail && !opts.smtpPresent) = true
      · rw [mainLoopR_succ_abort oracle rotOk opts i n apps hcr hc2] at hk ⊢
        simp only [List.length_singleton] at hk
        have hk0 : k = 0 := by omega
        subst hk0
        simp [process_buildsR, hb, wsAt]
      · rw [Bool.not_eq_true] at hc2
        by_cases hc3 : (process_buildsR oracle rotOk opts i apps).2.1.isEmpty = true
        · rw [mainLoopR_succ_stop oracle rotOk opts i n apps hcr hc2 hc3] at hk ⊢
          simp only [List.length_singleton] at hk
          have hk0 : k = 0 := by omega
          subst hk0
          simp [process_buildsR, hb, wsAt]
        · rw [Bool.not_eq_true] at hc3
          rw [mainLoopR_succ_cont oracle rotOk opts i n apps hcr hc2 hc3] at hk ⊢
          cases k with
          | zero => simp [process_buildsR, hb, wsAt]
          | succ k =>
            simp only [List.length_cons, Nat.add_lt_add_iff_right] at hk
            have hres := ih (i + 1) (process_buildsR oracle rotOk opts i apps).2.1 k hk
            simp only [List.getD_cons_succ]
            rw [hres]
            have hpr2 : (process_buildsR oracle rotOk opts i apps).2.1 =
                failedApps oracle i apps := by
              simp [process_buildsR, hb]
            rw [hpr2]
            have harith : i + 1 + k = i + (k + 1) := by omega
            rw [harith]
            rfl

/-- When every invoked rotation pass completes, the full loop is exactly
the rotation-infallible loop: same rounds, same missing-smtp abort, and
no crash.  This is the sense in which `mainLoop` is the restriction of
`mainLoopR`. -/
theorem mainLoopR_no_rotfail {α : Type} (oracle : Nat → α → Bool) (rotOk : Nat → Bool)
    (opts : Opts) (hr : truthyDays opts.maxDays = true → ∀ j, rotOk j = true)
    (i fuel : Nat) (apps : List α) :
    (mainLoopR oracle rotOk opts i fuel apps).rounds =
      (mainLoop oracle opts i fuel apps).rounds ∧
    (mainLoopR oracle rotOk opts i fuel apps).aborted =
      (mainLoop oracle opts i fuel apps).aborted ∧
    (mainLoopR oracle rotOk opts i fuel apps).crashed = false := by
  induction fuel generalizing i apps with
  | zero => exact ⟨rfl, rfl, rfl⟩
  | succ n ih =>
    have hcr : (process_buildsR oracle rotOk opts i apps).2.2 = false := by
      cases ht : truthyDays opts.maxDays with
      | false => simp [process_buildsR, ht]
      | true => simp [process_buildsR, ht, hr ht i]
    by_cases hc2 : (!(process_builds oracle opts i apps).1.results.isEmpty &&
        opts.sendMail && !opts.smtpPresent) = true
    · rw [mainLoopR_succ_abort oracle rotOk opts i n apps hcr hc2,
        mainLoop_succ_abort oracle opts i n apps hc2]
      exact ⟨rfl, rfl, rfl⟩
    · rw [Bool.not_eq_true] at hc2
      by_cases hc3 : (process_builds oracle opts i apps).2.isEmpty = true
      · rw [mainLoopR_succ_stop oracle rotOk opts i n apps hcr hc2 hc3,
          mainLoop_succ_stop oracle opts i n apps hc2 hc3]
        exact ⟨rfl, rfl, rfl⟩
      · rw [Bool.not_eq_true] at hc3
        rw [mainLoopR_succ_cont oracle rotOk opts i n apps hcr hc2 hc3,
          mainLoop_succ_cont oracle opts i n apps hc2 hc3]
        obtain ⟨h1, h2, h3⟩ := ih (i + 1) (process_builds oracle opts i apps).2
        simp only [process_buildsR_fst, process_buildsR_snd]
        exact ⟨by rw [h1], h2, h3⟩

/-- Claim C3: stated over the full loop model, in which an uncaught
rotation failure can kill the run mid-loop.  With builds enabled: every
executed round after the first works exactly on the descriptors whose
previous-round result failed, a descriptor whose attempt succeeded in
some round is never attempted in any later round, and at most `tries`
rounds run — these hold for whatever rounds executed, however the run
ended; and provided the missing-smtp exception cannot fire and every
invoked rotation pass completes (the fatal rotation-failure path is the
separately corrected rotation claim), the run neither aborts nor
crashes, stopping early only because the working set became empty (the
last round had no failures), and running the full `tries` rounds when
failures persist in every round. -/
theorem retry_loop_spec {α : Type} (oracle : Nat → α → Bool) (rotOk : Nat → Bool)
    (opts : Opts) (tries : Nat) (apps : List α)
    (hb : opts.build = true)
    (hm : opts.sendMail = true → opts.smtpPresent = true) :
    (∀ k, k + 1 < (mainR oracle rotOk opts tries apps).rounds.length →
      ((mainR oracle rotOk opts tries apps).rounds.getD (k + 1) ⟨[], false⟩).results.map
          (fun b => b.app) =
        (((mainR oracle rotOk opts tries apps).rounds.getD k ⟨[], false⟩).results.filter
            (fun b => !b.success)).map (fun b => b.app)) ∧
    (∀ k m, k < m → m < (mainR oracle rotOk opts tries apps).rounds.length →
      ∀ b ∈ ((mainR oracle rotOk opts tries apps).rounds.getD k ⟨[], false⟩).results,
        b.success = true →
        b.app ∉ ((mainR oracle rotOk opts tries apps).rounds.getD m ⟨[], false⟩).results.map
          (fun b => b.app)) ∧
    (mainR oracle rotOk opts tries apps).rounds.length ≤ tries ∧
    ((truthyDays opts.maxDays = true → ∀ j, rotOk j = true) →
      (mainR oracle rotOk opts tries apps).aborted = false ∧
      (mainR oracle rotOk opts tries apps).crashed = false ∧
      ((mainR oracle rotOk opts tries apps).rounds.length < tries →
        (((mainR oracle rotOk opts tries apps).rounds.getD
            ((mainR oracle rotOk opts tries apps).rounds.length - 1) ⟨[], false⟩).results.filter
          (fun b => !b.success)) = []) ∧
      ((∀ r ∈ (mainR oracle rotOk opts tries apps).rounds,
          r.results.filter (fun b => !b.success) ≠ []) →
        (mainR oracle rotOk opts tries apps).rounds.length = tries)) := by
  simp only [mainR]
  refine ⟨?_, ?_, mainLoopR_len_le oracle rotOk opts 0 tries apps, ?_⟩
  · intro k hk1
    have hk : k < (mainLoopR oracle rotOk opts 0 tries apps).rounds.length := by
      omega
    rw [mainLoopR_results oracle rotOk opts hb 0 tries apps (k + 1) hk1,
      mainLoopR_results oracle rotOk opts hb 0 tries apps k hk]
    rw [buildRound_map_app, filter_buildRound]
    have hmapid : ((failedApps oracle (0 + k) (wsAt oracle 0 k apps)).map
        (fun a => (⟨a, oracle (0 + k) a⟩ : BRes α))).map (fun b => b.app) =
        failedApps oracle (0 + k) (wsAt oracle 0 k apps) := by
      simp only [List.map_map]
      exact List.map_id _
    rw [hmapid]
    rw [Nat.zero_add]
    rw [wsAt_succ_last, Nat.zero_add]
  · intro k m hkm hml b hbmem hbsucc hbin
    have hkl : k < (mainLoopR oracle rotOk opts 0 tries apps).rounds.length := by omega
    rw [mainLoopR_results oracle rotOk opts hb 0 tries apps k hkl] at hbmem
    rw [mainLoopR_results oracle rotOk opts hb 0 tries apps m hml,
      buildRound_map_app] at hbin
    simp only [buildRound, List.mem_map] at hbmem
    obtain ⟨a, hain, hab⟩ := hbmem
    have happ : b.app = a := by rw [← hab]
    have hsucc : oracle (0 + k) a = true := by
      have := congrArg BRes.success hab
      simp only at this
      rw [← this] at hbsucc
      exact hbsucc
    have hsub : b.app ∈ wsAt oracle 0 (k + 1) apps := by
      have hmono := wsAt_mono oracle 0 (hkm : k + 1 ≤ m) apps
      exact hmono hbin
    have := mem_wsAt_succ oracle 0 k apps hsub
    rw [happ, Nat.zero_add] at this
    rw [Nat.zero_add] at hsucc
    rw [this] at hsucc
    exact Bool.false_ne_true hsucc
  · intro hr
    obtain ⟨hrw, habe, hcrf⟩ := mainLoopR_no_rotfail oracle rotOk opts hr 0 tries apps
    have hnoab := mainLoop_no_abort oracle opts 0 tries apps hm
    refine ⟨by rw [habe]; exact hnoab, hcrf, ?_, ?_⟩
    · intro hlt
      rw [hrw] at hlt ⊢
      exact mainLoop_early oracle opts hb 0 tries apps hnoab hlt
    · intro hall
      rw [hrw] at hall ⊢
      exact mainLoop_full oracle opts hb 0 tries apps hnoab hall

/-- The fatal path is live in the model: with a truthy age threshold and
a rotation pass whose deletion fails, the run dies in its first round —
builds execute, `crashed` is set, and none of the remaining four rounds
run, exactly as the uncaught `CalledProcessError` ends the source's
`main` mid-loop. -/
theorem mainLoopR_crash_example :
    (mainR (fun _ _ => true) (fun _ => false) (⟨true, false, true, some 7⟩ : Opts)
      5 [0]).crashed = true ∧
    (mainR (fun _ _ => true) (fun _ => false) (⟨true, false, true, some 7⟩ : Opts)
      5 [0]).rounds.map (fun r => r.results.length) = [1] :=
  ⟨rfl, rfl⟩

/-- Success oracle for the C3 witness: descriptor 0 always succeeds,
descriptor 1 always fails. -/
def oracleXYW : Nat → Nat → Bool := fun _ a => decide (a = 0)

/-- Options for the C3 witness: build on, no mail, no rotation. -/
def optsBuildW : Opts := ⟨true, false, true, none⟩

theorem retry_loop_spec_witness :
    (mainR oracleXYW (fun _ => true) optsBuildW 3 [0, 1]).rounds.length ≤ 3 ∧
    (mainR oracleXYW (fun _ => true) optsBuildW 3 [0, 1]).crashed = false ∧
    ((mainR oracleXYW (fun _ => true) optsBuildW 3 [0, 1]).rounds.getD 1
        ⟨[], false⟩).results.map (fun b => b.app) =
      (((mainR oracleXYW (fun _ => true) optsBuildW 3 [0, 1]).rounds.getD 0
          ⟨[], false⟩).results.filter (fun b => !b.success)).map (fun b => b.app) := by
  have h := retry_loop_spec oracleXYW (fun _ => true) optsBuildW 3 [0, 1] rfl
    (by simp [optsBuildW])
  exact ⟨h.2.2.1, (h.2.2.2 (fun _ _ => rfl)).2.1, h.1 0 (by decide)⟩

/-- Claim C6: the composed report of the final executed round has its
subject flag OK exactly when every result of that round succeeded; and
every result line appearing in the final report is the last attempt of
its descriptor — for each such descriptor, every result it had in any
earlier round was a failure (a failure fixed by a later retry never
appears in the final report). -/
theorem report_final_round_spec {α : Type} (oracle : Nat → α → Bool) (opts : Opts)
    (tries : Nat) (apps : List α) (hb : opts.build = true) :
    ((compose_mail ((main oracle opts tries apps).rounds.getD
        ((main oracle opts tries apps).rounds.length - 1) ⟨[], false⟩).results).1 = true ↔
      ∀ b ∈ ((main oracle opts tries apps).rounds.getD
        ((main oracle opts tries apps).rounds.length - 1) ⟨[], false⟩).results,
        b.success = true) ∧
    (∀ b ∈ ((main oracle opts tries apps).rounds.getD
        ((main oracle opts tries apps).rounds.length - 1) ⟨[], false⟩).results,
      ∀ j, j < (main oracle opts tries apps).rounds.length - 1 →
        ∀ b2 ∈ ((main oracle opts tries apps).rounds.getD j ⟨[], false⟩).results,
          b2.app = b.app → b2.success = false) := by
  simp only [main]
  constructor
  · simp [compose_mail, List.all_eq_true]
  · intro b hb1 j hj b2 hb2 happ
    have hlen : (mainLoop oracle opts 0 tries apps).rounds.length - 1 <
        (mainLoop oracle opts 0 tries apps).rounds.length := by omega
    rw [mainLoop_results oracle opts hb 0 tries apps _ hlen] at hb1
    rw [mainLoop_results oracle opts hb 0 tries apps j (by omega)] at hb2
    simp only [buildRound, List.mem_map] at hb1 hb2
    obtain ⟨a, hain, hab⟩ := hb1
    obtain ⟨a2, ha2in, hab2⟩ := hb2
    have happ1 : b.app = a := by rw [← hab]
    have happ2 : b2.app = a2 := by rw [← hab2]
    have hsucc2 : b2.success = oracle (0 + j) a2 := by rw [← hab2]
    have hsub : a ∈ wsAt oracle 0 (j + 1) apps := by
      have hmono := wsAt_mono oracle 0
        (by omega : j + 1 ≤ (mainLoop oracle opts 0 tries apps).rounds.length - 1) apps
      exact hmono hain
    have hfail := mem_wsAt_succ oracle 0 j apps hsub
    have ha2a : a2 = a := by rw [← happ2, happ, happ1]
    rw [hsucc2, ha2a]
    exact hfail

/-- Success oracle for the C6 witness: descriptor 0 succeeds in round 0;
descriptor 1 fails in round 0 and succeeds from round 1 on. -/
def oracleRetryW : Nat → Nat → Bool := fun i a => decide (a = 0 ∨ 1 ≤ i)

/-- Options for the C6 witness: build and mail on, smtp configured. -/
def optsMailW : Opts := ⟨true, true, true, none⟩

theorem report_final_round_spec_witness :
    (compose_mail ((main oracleRetryW optsMailW 2 [0, 1]).rounds.getD
        ((main oracleRetryW optsMailW 2 [0, 1]).rounds.length - 1) ⟨[], false⟩).results).1 =
      true ∧
    (⟨1, false⟩ : BRes Nat).success = false := by
  have h := report_final_round_spec oracleRetryW optsMailW 2 [0, 1] rfl
  refine ⟨h.1.mpr (by decide), ?_⟩
  exact h.2 ⟨1, true⟩ (by decide) 0 (by decide) ⟨1, false⟩ (by decide) rfl

/-- Claim C7 counterexample: with `--build --send-mail` and no `smtp`
section, the run does abort, but only after the first round's builds: the
aborted run still contains one executed round holding one build result,
so it is false that no descriptor's pipeline is executed. -/
theorem missing_smtp_cex :
    (main (fun _ _ => true) (⟨true, true, false, none⟩ : Opts) 2 [0]).aborted = true ∧
    (main (fun _ _ => true) (⟨true, true, false, none⟩ : Opts) 2 [0]).rounds.map
      (fun r => r.results.length) = [1] :=
  ⟨rfl, rfl⟩

/-- Claim C7 as amended: when notification is requested without transport
configuration (and builds are enabled on a non-empty batch), the run
aborts fatally during the first round — after every descriptor of that
round has been attempted, since the missing-smtp check runs only once
`process_builds` has returned — and no further round executes. -/
theorem missing_smtp_aborts_after_first_round {α : Type} (oracle : Nat → α → Bool)
    (opts : Opts) (tries : Nat) (apps : List α)
    (hb : opts.build = true) (hsm : opts.sendMail = true)
    (hsp : opts.smtpPresent = false) (ha : apps ≠ []) (ht : 0 < tries) :
    (main oracle opts tries apps).aborted = true ∧
    (main oracle opts tries apps).rounds.length = 1 ∧
    ((main oracle opts tries apps).rounds.getD 0 ⟨[], false⟩).results.map
      (fun b => b.app) = apps := by
  cases tries with
  | zero => omega
  | succ n =>
    have hne : buildRound oracle 0 apps ≠ [] := by
      cases apps with
      | nil => exact absurd rfl ha
      | cons a t => simp [buildRound]
    have hc1 : (!(process_builds oracle opts 0 apps).1.results.isEmpty &&
        opts.sendMail && !opts.smtpPresent) = true := by
      cases hbr : buildRound oracle 0 apps with
      | nil => exact absurd hbr hne
      | cons r rs => simp [process_builds, hb, hsm, hsp, hbr]
    simp only [main]
    rw [mainLoop_succ_abort oracle opts 0 n apps hc1]
    refine ⟨rfl, rfl, ?_⟩
    simp [process_builds, hb, buildRound_map_app]

theorem missing_smtp_aborts_witness :
    (main (fun _ _ => true) (⟨true, true, false, none⟩ : Opts) 2 [5]).aborted = true ∧
    ((main (fun _ _ => true) (⟨true, true, false, none⟩ : Opts) 2 [5]).rounds.getD 0
      ⟨[], false⟩).results.map (fun b => b.app) = [5] := by
  have h := missing_smtp_aborts_after_first_round (fun _ _ => true)
    (⟨true, true, false, none⟩ : Opts) 2 [5] rfl rfl rfl (by simp) (by omega)
  exact ⟨h.1, h.2.2⟩

/-- Claim C10: `--rotate 0` disables rotation entirely — the rotation
policy is invoked in no round, because `options.max_days` is tested for
python truthiness (`if options.max_days:`) before `rotate` is called and
`0` is falsy; by contrast any non-zero threshold makes every round
rotate. -/
theorem rotate_zero_disables {α : Type} (oracle : Nat → α → Bool) (opts : Opts)
    (tries : Nat) (apps : List α) :
    (opts.maxDays = some 0 →
      ∀ r ∈ (main oracle opts tries apps).rounds, r.rotated = false) ∧
    (∀ n : Int, opts.maxDays = some n → n ≠ 0 →
      ∀ r ∈ (main oracle opts tries apps).rounds, r.rotated = true) := by
  constructor
  · intro hd r hr
    simp only [main] at hr
    rw [mainLoop_rotated oracle opts 0 tries apps r hr, hd]
    rfl
  · intro n hd hn r hr
    simp only [main] at hr
    rw [mainLoop_rotated oracle opts 0 tries apps r hr, hd]
    simpa [truthyDays] using hn

theorem rotate_zero_disables_witness :
    ((main (fun _ _ => true) (⟨true, false, true, some 0⟩ : Opts) 2 [0]).rounds.getD 0
      ⟨[], false⟩).rotated = false :=
  (rotate_zero_disables (fun _ _ => true) (⟨true, false, true, some 0⟩ : Opts) 2 [0]).1
    rfl _ (by decide)
